import Mathlib

/-!
Shallow embedding of the `halide` film-simulation program
(src/halide.rs, src/emulsion.rs, src/main.rs).

Rust `f32` values are embedded as real numbers. Randomness is embedded by
passing the draw results explicitly: a Bernoulli photon-absorption outcome
(`rand::random::<f32>() < absorption_probability`) becomes a `Bool` supplied
by a stream `draws : ℕ → Bool`, and a `rng.random_range(lo..hi)` draw is
modelled by its contract (`lo + s % (hi - lo)` for integer ranges, or
`lo + u * (hi - lo)` for a unit draw `u ∈ [0,1)` for real ranges).
-/

namespace HalideSim

/-- One silver-halide grain: struct `Halide` in src/halide.rs. -/
@[ext]
structure Halide where
  x : ℕ
  y : ℕ
  radius : ℝ
  silver_count : ℕ
  latent_threshold : ℕ
  activated : Bool
  spectral_sensitivity : ℝ
  absorption_probability : ℝ
  developed_fraction : ℝ

/-- Modelled from the spec: the `Developer` value object. Its defining file
(src/developer.rs) is absent from the sources; only its two fields
`strength` and `max_development` are used (src/main.rs, §3 of the spec). -/
structure Developer where
  strength : ℝ
  max_development : ℝ

/-- `Halide::new` (src/halide.rs): the radius draw
`rng.random_range(0.1..0.5)` is modelled as `0.1 + u * (0.5 - 0.1)` for a
unit draw `u ∈ [0,1)`; `latent_threshold = 20` and
`absorption_probability = 0.9` are fixed constants in the source. -/
noncomputable def Halide.new (x y : ℕ) (u : ℝ) : Halide :=
  { x := x
    y := y
    radius := 0.1 + u * (0.5 - 0.1)
    silver_count := 0
    latent_threshold := 20
    activated := false
    spectral_sensitivity := 0
    absorption_probability := 0.9
    developed_fraction := 0 }

/-- Photon count of `Halide::expose`:
`(intensity * (PI * radius.powi(2)) * exposure_time) as usize`. -/
noncomputable def photonCount (g : Halide) (intensity exposure_time : ℝ) : ℕ :=
  ⌊intensity * (Real.pi * g.radius ^ 2) * exposure_time⌋₊

/-- The photon loop of `Halide::expose` (src/halide.rs lines 57-64):
`draws k = true` models the k-th `rand::random::<f32>() <
absorption_probability` outcome. Each absorbed photon increments the silver
count and then sets `activated` if the threshold is reached; the loop does
not break. -/
def exposeLoop (threshold : ℕ) : ℕ → (ℕ → Bool) → ℕ → Bool → ℕ × Bool
  | 0, _, silver, act => (silver, act)
  | n + 1, draws, silver, act =>
    if draws 0 then
      exposeLoop threshold n (fun i => draws (i + 1)) (silver + 1)
        (act || decide (threshold ≤ silver + 1))
    else
      exposeLoop threshold n (fun i => draws (i + 1)) silver act

/-- `Halide::expose` (src/halide.rs lines 50-65). -/
noncomputable def expose (g : Halide) (intensity exposure_time : ℝ)
    (draws : ℕ → Bool) : Halide :=
  if g.activated then g
  else
    { g with
      silver_count := (exposeLoop g.latent_threshold
        (photonCount g intensity exposure_time) draws g.silver_count g.activated).1
      activated := (exposeLoop g.latent_threshold
        (photonCount g intensity exposure_time) draws g.silver_count g.activated).2 }

/-- `Halide::develop_grain` (src/halide.rs lines 67-76): one explicit
integration step, guarded by `latent_ratio > 1e-6`; the source applies no
clamp to the accumulated `developed_fraction`. -/
noncomputable def develop_grain (g : Halide) (dev : Developer) (dt : ℝ) : Halide :=
  if ((g.silver_count : ℝ) / (g.latent_threshold : ℝ)) > 1e-6 then
    { g with developed_fraction := g.developed_fraction +
        dev.strength * ((g.silver_count : ℝ) / (g.latent_threshold : ℝ)) * dt }
  else g

/-- `Halide::from_pixel` (src/halide.rs lines 78-82). -/
noncomputable def from_pixel (x y : ℕ) (intensity exposure_time : ℝ)
    (u : ℝ) (draws : ℕ → Bool) : Halide :=
  expose (Halide.new x y u) intensity exposure_time draws

/-- `Halide::average_with_halide` (src/halide.rs lines 84-86): integer
division; only `silver_count` is written. -/
def average_with_halide (self other : Halide) : Halide :=
  { self with silver_count := (self.silver_count + other.silver_count) / 2 }

/-- `develop_grain` iterated `k` times with the same `dt` (the repeated
small-step mode of §4.4 / the round-trip property of §8). -/
noncomputable def develop_iter (g : Halide) (dev : Developer) (dt : ℝ) : ℕ → Halide
  | 0 => g
  | k + 1 => develop_grain (develop_iter g dev dt k) dev dt

/-- A sequence of `expose` calls, each with its own intensity, exposure time
and absorption-outcome stream. -/
noncomputable def exposeList (g : Halide) : List (ℝ × ℝ × (ℕ → Bool)) → Halide
  | [] => g
  | c :: cs => exposeList (expose g c.1 c.2.1 c.2.2) cs

/-- `struct Emulsion` (src/emulsion.rs): an ordered collection of grains. -/
structure Emulsion where
  grains : List Halide

/-- `Emulsion::create_random_emulsion` (src/emulsion.rs lines 15-30): each of
the `num_grains` parallel tasks draws `x ∈ [0,width)`, `y ∈ [0,height)` and
builds `Halide::new(x, y)`. The integer draws are modelled by their contract
`s % bound`; the push order into the mutex-guarded vector is fixed here to
the task index, which is one of the admissible interleavings. -/
noncomputable def create_random_emulsion (width height num_grains : ℕ)
    (xDraw yDraw : ℕ → ℕ) (uDraw : ℕ → ℝ) : Emulsion :=
  ⟨(List.range num_grains).map fun i =>
    Halide.new (xDraw i % width) (yDraw i % height) (uDraw i)⟩

/-- `Emulsion::film_density` (src/emulsion.rs lines 37-55); `log10` is
`Real.logb 10`. -/
noncomputable def film_density (developed_frac : ℝ) : ℝ :=
  if 0.05 + 0.8 * Real.logb 10 ((developed_frac + 0.02) / 0.02) < 0.05 then 0.05
  else if 0.05 + 0.8 * Real.logb 10 ((developed_frac + 0.02) / 0.02) > 2.5 then 2.5
  else 0.05 + 0.8 * Real.logb 10 ((developed_frac + 0.02) / 0.02)

/-- The pixel value written for one grain in `Emulsion::render_emulsion`
(src/emulsion.rs lines 72-80): `(255.0 * (1.0 - norm)).clamp(0.0, 255.0) as
u8`. The `f32 → u8` cast truncates toward zero, embedded as `Nat.floor` of
the clamped (hence non-negative) value. -/
noncomputable def grain_intensity (g : Halide) : ℕ :=
  ⌊(if 255 * (1 - (film_density g.developed_fraction - 0.05) / (2.5 - 0.05)) < 0 then 0
     else if 255 * (1 - (film_density g.developed_fraction - 0.05) / (2.5 - 0.05)) > 255 then 255
     else 255 * (1 - (film_density g.developed_fraction - 0.05) / (2.5 - 0.05)) : ℝ)⌋₊

/-- One iteration of the render loop (src/emulsion.rs lines 65-87): grains
outside `[0,width) × [0,height)` are skipped, otherwise the grain's
intensity is written at its position. -/
noncomputable def renderStep (width height : ℕ) (canvas : ℕ → ℕ → ℕ)
    (g : Halide) : ℕ → ℕ → ℕ :=
  if g.x < width ∧ g.y < height then
    fun px py => if px = g.x ∧ py = g.y then grain_intensity g else canvas px py
  else canvas

/-- `Emulsion::render_emulsion` (src/emulsion.rs lines 57-90): canvas starts
white (255 in every channel) and the grains are written in order. -/
noncomputable def render_emulsion (em : Emulsion) (width height : ℕ) :
    ℕ → ℕ → ℕ :=
  em.grains.foldl (renderStep width height) fun _ _ => 255

/-- Kernel side length in `make_gaussian_kernel_2d` (src/main.rs lines 16-17):
`radius = ceil(3σ) as i32; size = (2*radius+1).max(3)`. -/
noncomputable def kernelSize (sigma : ℝ) : ℕ := max (2 * ⌈3 * sigma⌉₊ + 1) 3

/-- Unnormalized kernel entry `exp(-r²/(2σ²))` at row `y`, column `x`
(src/main.rs lines 24-33); `half = size / 2` by integer division. -/
noncomputable def kernelVal (sigma : ℝ) (size : ℕ) (y x : ℕ) : ℝ :=
  Real.exp (-((((x : ℤ) - (size / 2 : ℕ)) * ((x : ℤ) - (size / 2 : ℕ)) +
      ((y : ℤ) - (size / 2 : ℕ)) * ((y : ℤ) - (size / 2 : ℕ)) : ℤ) : ℝ) /
    (2 * sigma * sigma))

/-- Sum of all unnormalized kernel entries (the `sum` accumulator of
src/main.rs lines 19-33). -/
noncomputable def kernelSum (sigma : ℝ) (size : ℕ) : ℝ :=
  ∑ y ∈ Finset.range size, ∑ x ∈ Finset.range size, kernelVal sigma size y x

/-- Normalized kernel entry produced by `make_gaussian_kernel_2d`
(src/main.rs lines 35-38). -/
noncomputable def gaussianKernel (sigma : ℝ) (y x : ℕ) : ℝ :=
  kernelVal sigma (kernelSize sigma) y x / kernelSum sigma (kernelSize sigma)

/-- One term of the convolution sum in `convolve_2d` (src/main.rs lines
55-66): out-of-canvas samples contribute nothing. -/
noncomputable def convTerm (width height : ℕ) (input : ℕ → ℝ)
    (kernel : ℕ → ℕ → ℝ) (ksize : ℕ) (x y ky kx : ℕ) : ℝ :=
  if 0 ≤ (x : ℤ) + ((kx : ℤ) - (ksize / 2 : ℕ)) ∧
      (x : ℤ) + ((kx : ℤ) - (ksize / 2 : ℕ)) < (width : ℤ) ∧
      0 ≤ (y : ℤ) + ((ky : ℤ) - (ksize / 2 : ℕ)) ∧
      (y : ℤ) + ((ky : ℤ) - (ksize / 2 : ℕ)) < (height : ℤ) then
    input (((y : ℤ) + ((ky : ℤ) - (ksize / 2 : ℕ))).toNat * width +
        ((x : ℤ) + ((kx : ℤ) - (ksize / 2 : ℕ))).toNat) *
      kernel ky kx
  else 0

/-- Output pixel `(x, y)` of `convolve_2d` (src/main.rs lines 42-73); the
flat input buffer is a function from flat index to value. -/
noncomputable def convolvePixel (width height : ℕ) (input : ℕ → ℝ)
    (kernel : ℕ → ℕ → ℝ) (ksize : ℕ) (x y : ℕ) : ℝ :=
  ∑ ky ∈ Finset.range ksize, ∑ kx ∈ Finset.range ksize,
    convTerm width height input kernel ksize x y ky kx

/-- `simulate_halation_2d` (src/main.rs lines 80-111) as a flat buffer:
index `i` is pixel `(i % width, i / width)`. -/
noncomputable def simulate_halation_2d (width height : ℕ) (input : ℕ → ℝ)
    (reflection_factor sigma_down sigma_up : ℝ) : ℕ → ℝ :=
  fun i => input i +
    convolvePixel width height
      (fun j => convolvePixel width height input (gaussianKernel sigma_down)
          (kernelSize sigma_down) (j % width) (j / width) * reflection_factor)
      (gaussianKernel sigma_up) (kernelSize sigma_up) (i % width) (i / width)

/- ### Helper lemmas on the expose loop and the development step -/

lemma exposeLoop_fst_le (threshold n : ℕ) (draws : ℕ → Bool) (silver : ℕ)
    (act : Bool) : (exposeLoop threshold n draws silver act).1 ≤ silver + n := by
  induction n generalizing draws silver act with
  | zero => simp [exposeLoop]
  | succ n ih =>
    rw [exposeLoop]
    split
    · exact le_trans (ih _ _ _) (by omega)
    · exact le_trans (ih _ _ _) (by omega)

lemma exposeLoop_snd_eq (threshold n : ℕ) (draws : ℕ → Bool) (silver : ℕ)
    (act : Bool) (h : act = decide (threshold ≤ silver)) :
    (exposeLoop threshold n draws silver act).2 =
      decide (threshold ≤ (exposeLoop threshold n draws silver act).1) := by
  induction n generalizing draws silver act with
  | zero => simp [exposeLoop, h]
  | succ n ih =>
    rw [exposeLoop]
    split
    · refine ih _ _ _ ?_
      subst h
      by_cases hts : threshold ≤ silver
      · simp [hts, Nat.le_succ_of_le hts]
      · simp [hts]
    · exact ih _ _ _ h

lemma expose_latent_threshold (g : Halide) (i t : ℝ) (d : ℕ → Bool) :
    (expose g i t d).latent_threshold = g.latent_threshold := by
  rw [expose]
  split <;> rfl

lemma expose_inv (g : Halide) (i t : ℝ) (d : ℕ → Bool)
    (h : g.activated = decide (g.latent_threshold ≤ g.silver_count)) :
    (expose g i t d).activated =
      decide ((expose g i t d).latent_threshold ≤ (expose g i t d).silver_count) := by
  rw [expose]
  split
  · exact h
  · exact exposeLoop_snd_eq _ _ _ _ _ h

lemma develop_grain_silver_count (g : Halide) (dev : Developer) (dt : ℝ) :
    (develop_grain g dev dt).silver_count = g.silver_count := by
  rw [develop_grain]
  split <;> rfl

lemma develop_grain_latent_threshold (g : Halide) (dev : Developer) (dt : ℝ) :
    (develop_grain g dev dt).latent_threshold = g.latent_threshold := by
  rw [develop_grain]
  split <;> rfl

lemma develop_iter_eq (g : Halide) (dev : Developer) (dt : ℝ) (k : ℕ) :
    develop_iter g dev dt k =
      if ((g.silver_count : ℝ) / (g.latent_threshold : ℝ)) > 1e-6 then
        { g with developed_fraction := g.developed_fraction +
            k * (dev.strength * ((g.silver_count : ℝ) / (g.latent_threshold : ℝ)) * dt) }
      else g := by
  induction k with
  | zero =>
    rw [develop_iter]
    split
    · ext <;> simp
    · rfl
  | succ k ih =>
    rw [develop_iter, ih]
    by_cases hr : ((g.silver_count : ℝ) / (g.latent_threshold : ℝ)) > 1e-6
    · rw [if_pos hr, if_pos hr]
      simp only [develop_grain]
      rw [if_pos hr]
      ext <;> simp
      ring
    · rw [if_neg hr, if_neg hr, develop_grain, if_neg hr]

/- ### Claim theorems -/

/-- C1: the claim says each development step clamps `developed_fraction` to
`[0, dev.max_development]`; `develop_grain` applies no clamp, so a single
step with `strength = 10`, `latent_ratio = 1`, `dt = 1` drives
`developed_fraction` to 10, far above `max_development = 1`. -/
theorem develop_grain_ignores_max_development :
    (develop_grain ⟨0, 0, 1, 20, 20, true, 0, 0.9, 0⟩ ⟨10, 1⟩ 1).developed_fraction = 10 ∧
    (develop_grain ⟨0, 0, 1, 20, 20, true, 0, 0.9, 0⟩ ⟨10, 1⟩ 1).developed_fraction >
      (⟨10, 1⟩ : Developer).max_development := by
  have h : (develop_grain ⟨0, 0, 1, 20, 20, true, 0, 0.9, 0⟩ ⟨10, 1⟩ 1).developed_fraction = 10 := by
    rw [develop_grain, if_pos (by norm_num)]
    norm_num
  exact ⟨h, by rw [h]; norm_num⟩

/-- C9: exposing an already-activated grain is a no-op on every field. -/
theorem expose_activated_noop (g : Halide) (intensity exposure_time : ℝ)
    (draws : ℕ → Bool) (hact : g.activated = true) (hi : 0 ≤ intensity)
    (ht : 0 ≤ exposure_time) : expose g intensity exposure_time draws = g := by
  rw [expose, if_pos hact]

/-- Witness for C9 at a concrete activated grain. -/
theorem expose_activated_noop_witness :
    expose ⟨0, 0, 1, 20, 20, true, 0, 0.9, 0⟩ 1 1 (fun _ => true) =
      ⟨0, 0, 1, 20, 20, true, 0, 0.9, 0⟩ :=
  expose_activated_noop _ 1 1 _ rfl (by norm_num) (by norm_num)

/-- C10: `average_with_halide` writes only `silver_count` (the integer mean
of the two counts) and leaves every other field, in particular `activated`,
untouched; hence a pair of grains that each satisfy the activation
equivalence can average to a grain with `activated = true` but
`silver_count < latent_threshold`. -/
theorem average_with_halide_breaks_activation :
    (∀ a b : Halide,
      (average_with_halide a b).silver_count = (a.silver_count + b.silver_count) / 2 ∧
      (average_with_halide a b).x = a.x ∧ (average_with_halide a b).y = a.y ∧
      (average_with_halide a b).radius = a.radius ∧
      (average_with_halide a b).latent_threshold = a.latent_threshold ∧
      (average_with_halide a b).activated = a.activated ∧
      (average_with_halide a b).spectral_sensitivity = a.spectral_sensitivity ∧
      (average_with_halide a b).absorption_probability = a.absorption_probability ∧
      (average_with_halide a b).developed_fraction = a.developed_fraction) ∧
    ∃ a b : Halide,
      a.activated = decide (a.latent_threshold ≤ a.silver_count) ∧
      b.activated = decide (b.latent_threshold ≤ b.silver_count) ∧
      (average_with_halide a b).activated = true ∧
      (average_with_halide a b).silver_count < (average_with_halide a b).latent_threshold := by
  refine ⟨fun a b => ⟨rfl, rfl, rfl, rfl, rfl, rfl, rfl, rfl, rfl⟩,
    ⟨0, 0, 1, 20, 20, true, 0, 0.9, 0⟩, ⟨0, 0, 1, 0, 20, false, 0, 0.9, 0⟩,
    rfl, rfl, rfl, ?_⟩
  norm_num [average_with_halide]

/-- C5: one development step with `dt = T` equals `k` steps with
`dt = T / k` — the integration rate depends only on `silver_count`, which
development never changes, so the increments add up exactly. -/
theorem develop_linearity (g : Halide) (dev : Developer) (T : ℝ) (k : ℕ)
    (hT : 0 < T) (hk : 1 ≤ k) :
    develop_iter g dev (T / k) k = develop_grain g dev T := by
  rw [develop_iter_eq, develop_grain]
  by_cases hr : ((g.silver_count : ℝ) / (g.latent_threshold : ℝ)) > 1e-6
  · rw [if_pos hr, if_pos hr]
    have hk0 : (k : ℝ) ≠ 0 := Nat.cast_ne_zero.mpr (by omega)
    ext <;> simp
    field_simp [hk0]
    rw [mul_comm ((g.latent_threshold : ℝ)) ((k : ℝ)), mul_div_mul_left _ _ hk0]
  · rw [if_neg hr, if_neg hr]

/-- Witness for C5: two half-steps equal one full step on a concrete grain. -/
theorem develop_linearity_witness :
    develop_iter ⟨0, 0, 1, 20, 20, true, 0, 0.9, 0⟩ ⟨10, 1⟩ (1 / ((2 : ℕ) : ℝ)) 2 =
      develop_grain ⟨0, 0, 1, 20, 20, true, 0, 0.9, 0⟩ ⟨10, 1⟩ 1 :=
  develop_linearity _ _ 1 2 (by norm_num) (by norm_num)

/-- C6: a single `expose` call preserves the equivalence
`activated == (silver_count ≥ latent_threshold)`, and every grain built by
`Halide::new` satisfies it after any sequence of `expose` calls. -/
theorem expose_preserves_activation_equiv :
    (∀ (g : Halide) (i t : ℝ) (d : ℕ → Bool),
      g.activated = decide (g.latent_threshold ≤ g.silver_count) →
      (expose g i t d).activated =
        decide ((expose g i t d).latent_threshold ≤ (expose g i t d).silver_count)) ∧
    ∀ (x y : ℕ) (u : ℝ) (calls : List (ℝ × ℝ × (ℕ → Bool))),
      (exposeList (Halide.new x y u) calls).activated =
        decide ((exposeList (Halide.new x y u) calls).latent_threshold ≤
          (exposeList (Halide.new x y u) calls).silver_count) := by
  refine ⟨expose_inv, fun x y u calls => ?_⟩
  have key : ∀ (cs : List (ℝ × ℝ × (ℕ → Bool))) (g : Halide),
      g.activated = decide (g.latent_threshold ≤ g.silver_count) →
      (exposeList g cs).activated =
        decide ((exposeList g cs).latent_threshold ≤ (exposeList g cs).silver_count) := by
    intro cs
    induction cs with
    | nil => exact fun g h => h
    | cons c cs ih => exact fun g h => ih _ (expose_inv _ _ _ _ h)
  exact key calls _ rfl

/-- Witness for C6 at a concrete fresh grain and one concrete call. -/
theorem expose_preserves_activation_equiv_witness :
    (expose ⟨0, 0, 1, 0, 20, false, 0, 0.9, 0⟩ 0 1 (fun _ => false)).activated =
      decide ((expose ⟨0, 0, 1, 0, 20, false, 0, 0.9, 0⟩ 0 1 (fun _ => false)).latent_threshold ≤
        (expose ⟨0, 0, 1, 0, 20, false, 0, 0.9, 0⟩ 0 1 (fun _ => false)).silver_count) :=
  expose_preserves_activation_equiv.1 _ 0 1 _ rfl

/-- C2 counterexample: the photon loop has no early exit, so with
`latent_threshold = 1`, `radius = 1`, `intensity = exposure_time = 1`
(hence `photonCount = ⌊π⌋ = 3`) and every photon absorbed, the final
`silver_count` is 3, strictly above the threshold — refuting
"after any expose call, silver_count is at most latent_threshold". -/
theorem expose_silver_exceeds_threshold :
    ¬ ((expose ⟨0, 0, 1, 0, 1, false, 0, 0.9, 0⟩ 1 1 (fun _ => true)).silver_count ≤
        (⟨0, 0, 1, 0, 1, false, 0, 0.9, 0⟩ : Halide).latent_threshold) := by
  have hpc : photonCount ⟨0, 0, 1, 0, 1, false, 0, 0.9, 0⟩ 1 1 = 3 := by
    rw [photonCount]
    have h1 : (1 : ℝ) * (Real.pi * (⟨0, 0, 1, 0, 1, false, 0, 0.9, 0⟩ : Halide).radius ^ 2) * 1 =
        Real.pi := by
      norm_num
    rw [h1, Nat.floor_eq_iff Real.pi_pos.le]
    constructor
    · exact_mod_cast Real.pi_gt_three.le
    · have h := Real.pi_lt_d2
      push_cast
      linarith
  rw [expose, if_neg (by decide), hpc]
  decide

/-- C2 amended: as soon as `silver_count` reaches `latent_threshold` the
grain is marked activated, but the remaining photons are still processed
and keep incrementing `silver_count`; after the call `silver_count` can be
anything up to its prior value plus `photonCount`. -/
theorem expose_activation_and_silver_bound (g : Halide) (intensity exposure_time : ℝ)
    (draws : ℕ → Bool) (hact : g.activated = false)
    (hlt : g.silver_count < g.latent_threshold) :
    (expose g intensity exposure_time draws).activated =
      decide (g.latent_threshold ≤ (expose g intensity exposure_time draws).silver_count) ∧
    (expose g intensity exposure_time draws).silver_count ≤
      g.silver_count + photonCount g intensity exposure_time := by
  rw [expose, if_neg (by simp [hact])]
  refine ⟨?_, exposeLoop_fst_le _ _ _ _ _⟩
  exact exposeLoop_snd_eq _ _ _ _ _
    (by rw [hact]; exact (decide_eq_false (Nat.not_le.mpr hlt)).symm)

/-- Witness for the amended C2 at a concrete grain and call. -/
theorem expose_activation_and_silver_bound_witness :
    (expose ⟨0, 0, 1, 0, 20, false, 0, 0.9, 0⟩ 0 1 (fun _ => false)).activated =
      decide ((20 : ℕ) ≤ (expose ⟨0, 0, 1, 0, 20, false, 0, 0.9, 0⟩ 0 1 (fun _ => false)).silver_count) ∧
    (expose ⟨0, 0, 1, 0, 20, false, 0, 0.9, 0⟩ 0 1 (fun _ => false)).silver_count ≤
      0 + photonCount ⟨0, 0, 1, 0, 20, false, 0, 0.9, 0⟩ 0 1 :=
  expose_activation_and_silver_bound _ 0 1 _ rfl (by norm_num)

/- ### Kernel and convolution helper lemmas -/

lemma kernelSize_pos (sigma : ℝ) : 0 < kernelSize sigma :=
  lt_of_lt_of_le (by norm_num) (le_max_right _ _)

lemma kernelSum_pos (sigma : ℝ) : 0 < kernelSum sigma (kernelSize sigma) := by
  apply Finset.sum_pos
  · intro y hy
    apply Finset.sum_pos
    · intro x hx
      exact Real.exp_pos _
    · exact Finset.nonempty_range_iff.mpr (kernelSize_pos sigma).ne'
  · exact Finset.nonempty_range_iff.mpr (kernelSize_pos sigma).ne'

lemma gaussianKernel_nonneg (sigma : ℝ) (y x : ℕ) : 0 ≤ gaussianKernel sigma y x :=
  div_nonneg (Real.exp_pos _).le (kernelSum_pos sigma).le

lemma convTerm_nonneg (width height : ℕ) (input : ℕ → ℝ) (kernel : ℕ → ℕ → ℝ)
    (ksize : ℕ) (x y ky kx : ℕ)
    (hin : ∀ i, i < width * height → 0 ≤ input i)
    (hker : ∀ a b, 0 ≤ kernel a b) :
    0 ≤ convTerm width height input kernel ksize x y ky kx := by
  rw [convTerm]
  split
  · rename_i h
    obtain ⟨h1, h2, h3, h4⟩ := h
    refine mul_nonneg (hin _ ?_) (hker _ _)
    set A := ((x : ℤ) + ((kx : ℤ) - (ksize / 2 : ℕ))).toNat with hA
    set B := ((y : ℤ) + ((ky : ℤ) - (ksize / 2 : ℕ))).toNat with hB
    have hx' : A < width := by omega
    have hy' : B < height := by omega
    calc B * width + A < B * width + width := by omega
      _ = (B + 1) * width := by ring
      _ ≤ height * width := Nat.mul_le_mul_right _ (Nat.succ_le_of_lt hy')
      _ = width * height := Nat.mul_comm _ _
  · exact le_refl 0

lemma convolvePixel_nonneg (width height : ℕ) (input : ℕ → ℝ)
    (kernel : ℕ → ℕ → ℝ) (ksize : ℕ) (x y : ℕ)
    (hin : ∀ i, i < width * height → 0 ≤ input i)
    (hker : ∀ a b, 0 ≤ kernel a b) :
    0 ≤ convolvePixel width height input kernel ksize x y :=
  Finset.sum_nonneg fun ky _ => Finset.sum_nonneg fun kx _ =>
    convTerm_nonneg width height input kernel ksize x y ky kx hin hker

/-- C3 counterexample: the single grain of a one-grain random emulsion has
`latent_threshold = 20` — not an integer in `[5, 20)` — and
`absorption_probability = 0.9` — not in `[0.3, 0.6)`. -/
theorem create_random_emulsion_fixed_parameters :
    ((create_random_emulsion 1 1 1 (fun _ => 0) (fun _ => 0) (fun _ => 0)).grains.map
      fun g => g.latent_threshold) = [20] ∧
    ¬ ((20 : ℕ) < 20) ∧
    ((create_random_emulsion 1 1 1 (fun _ => 0) (fun _ => 0) (fun _ => 0)).grains.map
      fun g => g.absorption_probability) = [(0.9 : ℝ)] ∧
    ¬ ((0.9 : ℝ) < 0.6) :=
  ⟨rfl, by norm_num, rfl, by norm_num⟩

/-- C3 amended: every grain of `create_random_emulsion` lies inside the
canvas and has radius in `[0.1, 0.5)`, but `latent_threshold` is the fixed
constant 20 and `absorption_probability` the fixed constant 0.9; the
emulsion holds exactly `num_grains` grains. -/
theorem create_random_emulsion_grain_properties (width height n : ℕ)
    (xDraw yDraw : ℕ → ℕ) (uDraw : ℕ → ℝ) (hw : 0 < width) (hh : 0 < height)
    (hu : ∀ i, 0 ≤ uDraw i ∧ uDraw i < 1) :
    (create_random_emulsion width height n xDraw yDraw uDraw).grains.length = n ∧
    ∀ g ∈ (create_random_emulsion width height n xDraw yDraw uDraw).grains,
      g.x < width ∧ g.y < height ∧ 0.1 ≤ g.radius ∧ g.radius < 0.5 ∧
      g.latent_threshold = 20 ∧ g.absorption_probability = 0.9 := by
  constructor
  · simp [create_random_emulsion]
  · intro g hg
    simp only [create_random_emulsion, List.mem_map, List.mem_range] at hg
    obtain ⟨i, hi, rfl⟩ := hg
    refine ⟨Nat.mod_lt _ hw, Nat.mod_lt _ hh, ?_, ?_, rfl, rfl⟩
    · have h0 := (hu i).1
      simp only [Halide.new]
      nlinarith
    · have h1 := (hu i).2
      simp only [Halide.new]
      nlinarith

/-- Witness for the amended C3 on a concrete 2×3 canvas with 4 grains. -/
theorem create_random_emulsion_grain_properties_witness :
    (create_random_emulsion 2 3 4 (fun _ => 5) (fun _ => 7) (fun _ => 0)).grains.length = 4 ∧
    ∀ g ∈ (create_random_emulsion 2 3 4 (fun _ => 5) (fun _ => 7) (fun _ => 0)).grains,
      g.x < 2 ∧ g.y < 3 ∧ 0.1 ≤ g.radius ∧ g.radius < 0.5 ∧
      g.latent_threshold = 20 ∧ g.absorption_probability = 0.9 :=
  create_random_emulsion_grain_properties 2 3 4 _ _ _ (by norm_num) (by norm_num)
    (fun i => by norm_num)

/-- C8: for `sigma > 0`, the kernel side is `max(2*ceil(3*sigma)+1, 3)` and
the normalized entries sum to exactly 1, hence within `1e-4` of 1. -/
theorem gaussian_kernel_size_and_sum (sigma : ℝ) (hs : 0 < sigma) :
    kernelSize sigma = max (2 * ⌈3 * sigma⌉₊ + 1) 3 ∧
    |(∑ y ∈ Finset.range (kernelSize sigma), ∑ x ∈ Finset.range (kernelSize sigma),
        gaussianKernel sigma y x) - 1| ≤ 1e-4 := by
  refine ⟨rfl, ?_⟩
  have hsum : (∑ y ∈ Finset.range (kernelSize sigma), ∑ x ∈ Finset.range (kernelSize sigma),
      gaussianKernel sigma y x) = 1 := by
    simp only [gaussianKernel, ← Finset.sum_div]
    exact div_self (kernelSum_pos sigma).ne'
  rw [hsum]
  norm_num

/-- Witness for C8 at `sigma = 1`. -/
theorem gaussian_kernel_size_and_sum_witness :
    kernelSize 1 = max (2 * ⌈3 * (1 : ℝ)⌉₊ + 1) 3 ∧
    |(∑ y ∈ Finset.range (kernelSize 1), ∑ x ∈ Finset.range (kernelSize 1),
        gaussianKernel 1 y x) - 1| ≤ 1e-4 :=
  gaussian_kernel_size_and_sum 1 (by norm_num)

/-- C7: with non-negative input and positive reflection factor, halation
only adds energy — the output dominates the input at every pixel. -/
theorem halation_pointwise_ge_input (width height : ℕ) (input : ℕ → ℝ)
    (reflection_factor sigma_down sigma_up : ℝ)
    (hin : ∀ i, i < width * height → 0 ≤ input i)
    (hrf : 0 < reflection_factor) (hsd : 0 < sigma_down) (hsu : 0 < sigma_up) :
    ∀ i, input i ≤
      simulate_halation_2d width height input reflection_factor sigma_down sigma_up i := by
  intro i
  rw [simulate_halation_2d]
  have hup : 0 ≤ convolvePixel width height
      (fun j => convolvePixel width height input (gaussianKernel sigma_down)
        (kernelSize sigma_down) (j % width) (j / width) * reflection_factor)
      (gaussianKernel sigma_up) (kernelSize sigma_up) (i % width) (i / width) := by
    apply convolvePixel_nonneg
    · intro j hj
      exact mul_nonneg
        (convolvePixel_nonneg width height input (gaussianKernel sigma_down)
          (kernelSize sigma_down) (j % width) (j / width) hin
          (gaussianKernel_nonneg sigma_down))
        hrf.le
    · exact gaussianKernel_nonneg sigma_up
  linarith

/-- Witness for C7 on a 1×1 canvas with zero input. -/
theorem halation_pointwise_ge_input_witness :
    (0 : ℝ) ≤ simulate_halation_2d 1 1 (fun _ => (0 : ℝ)) 1 1 1 0 :=
  halation_pointwise_ge_input 1 1 (fun _ => (0 : ℝ)) 1 1 1
    (fun i _ => le_refl 0) (by norm_num) (by norm_num) (by norm_num) 0

/- ### Renderer lemmas -/

lemma film_density_eq_clamp (d : ℝ) :
    film_density d =
      min (max (0.05 + 0.8 * Real.logb 10 ((d + 0.02) / 0.02)) 0.05) 2.5 := by
  rw [film_density]
  split_ifs with h1 h2
  · rw [max_eq_right h1.le, min_eq_left (by norm_num)]
  · rw [max_eq_left (not_lt.mp h1), min_eq_right h2.le]
  · rw [max_eq_left (not_lt.mp h1), min_eq_left (not_lt.mp h2)]

lemma film_density_018 : film_density 0.18 = 0.85 := by
  have hlog : Real.logb 10 (((0.18 : ℝ) + 0.02) / 0.02) = 1 := by
    rw [show ((0.18 : ℝ) + 0.02) / 0.02 = 10 from by norm_num]
    exact Real.logb_self_eq_one (by norm_num)
  rw [film_density, hlog]
  norm_num

/-- C4 counterexample: a grain with `developed_fraction = 0.18` has density
exactly 0.85, `norm = 16/49`, and `255·(1−norm) = 8415/49 ≈ 171.73`; the
renderer's `as u8` cast truncates this to 171, while the claim's
`round(255·(1−norm))` is 172. -/
theorem render_truncates_not_rounds :
    render_emulsion ⟨[⟨0, 0, 1, 0, 20, false, 0, 0.9, 0.18⟩]⟩ 1 1 0 0 = 171 ∧
    round ((255 : ℝ) * (1 - (film_density 0.18 - 0.05) / (2.5 - 0.05))) = 172 := by
  have hfd : film_density 0.18 = 0.85 := film_density_018
  constructor
  · have hgi : grain_intensity ⟨0, 0, 1, 0, 20, false, 0, 0.9, 0.18⟩ = 171 := by
      rw [grain_intensity,
        show (⟨0, 0, 1, 0, 20, false, 0, 0.9, 0.18⟩ : Halide).developed_fraction = 0.18 from rfl,
        hfd, if_neg (by norm_num), if_neg (by norm_num),
        show (255 : ℝ) * (1 - ((0.85 : ℝ) - 0.05) / (2.5 - 0.05)) = 8415 / 49 from by norm_num,
        Nat.floor_eq_iff (by norm_num : (0 : ℝ) ≤ 8415 / 49)]
      constructor <;> norm_num
    rw [render_emulsion, List.foldl_cons, List.foldl_nil, renderStep,
      if_pos (by exact ⟨by norm_num, by norm_num⟩)]
    simpa using hgi
  · rw [hfd, round_eq,
      show (255 : ℝ) * (1 - ((0.85 : ℝ) - 0.05) / (2.5 - 0.05)) + 1 / 2 = 16879 / 98 from by
        norm_num,
      Int.floor_eq_iff]
    constructor <;> norm_num

/-- C4 amended: for a grain inside the canvas, the renderer writes at its
position the pixel value obtained from the characteristic curve — density
`d_min + gamma·log10((developed_fraction + e0)/e0)` clamped to
`[d_min, d_max]`, normalized, inverted, scaled to 255, clamped to
`[0, 255]` and truncated toward zero (not rounded). -/
theorem render_writes_characteristic_intensity (gs : List Halide) (g : Halide)
    (width height : ℕ) (hx : g.x < width) (hy : g.y < height) :
    render_emulsion ⟨gs ++ [g]⟩ width height g.x g.y =
      ⌊(if 255 * (1 - (min (max (0.05 + 0.8 *
            Real.logb 10 ((g.developed_fraction + 0.02) / 0.02)) 0.05) 2.5 - 0.05) /
            (2.5 - 0.05)) < 0 then 0
        else if 255 * (1 - (min (max (0.05 + 0.8 *
            Real.logb 10 ((g.developed_fraction + 0.02) / 0.02)) 0.05) 2.5 - 0.05) /
            (2.5 - 0.05)) > 255 then 255
        else 255 * (1 - (min (max (0.05 + 0.8 *
            Real.logb 10 ((g.developed_fraction + 0.02) / 0.02)) 0.05) 2.5 - 0.05) /
            (2.5 - 0.05)) : ℝ)⌋₊ := by
  rw [render_emulsion, List.foldl_append, List.foldl_cons, List.foldl_nil, renderStep,
    if_pos ⟨hx, hy⟩]
  simp only [eq_self_iff_true, and_self, if_true]
  rw [grain_intensity, film_density_eq_clamp]

/-- Witness for the amended C4: one undeveloped grain on a 1×1 canvas. -/
theorem render_writes_characteristic_intensity_witness :
    render_emulsion ⟨[⟨0, 0, 1, 0, 20, false, 0, 0.9, 0⟩]⟩ 1 1 0 0 =
      ⌊(if 255 * (1 - (min (max (0.05 + 0.8 *
            Real.logb 10 (((0 : ℝ) + 0.02) / 0.02)) 0.05) 2.5 - 0.05) /
            (2.5 - 0.05)) < 0 then 0
        else if 255 * (1 - (min (max (0.05 + 0.8 *
            Real.logb 10 (((0 : ℝ) + 0.02) / 0.02)) 0.05) 2.5 - 0.05) /
            (2.5 - 0.05)) > 255 then 255
        else 255 * (1 - (min (max (0.05 + 0.8 *
            Real.logb 10 (((0 : ℝ) + 0.02) / 0.02)) 0.05) 2.5 - 0.05) /
            (2.5 - 0.05)) : ℝ)⌋₊ :=
  render_writes_characteristic_intensity [] ⟨0, 0, 1, 0, 20, false, 0, 0.9, 0⟩ 1 1
    (by norm_num) (by norm_num)

end HalideSim
